import Mathlib

/-!
Verification development for the MTS one-dimensional HDG solver core
(`SystemSolver.cpp`, `Solver.cpp`).

The embedding follows the C++ source.  Eigen dynamic matrices and vectors
are modelled as total functions `ℕ → ℕ → ℚ` / `ℕ → ℚ` together with
explicit extents; all statements are made on the index ranges the code
uses.  `Eigen::FullPivLU::solve` is modelled as multiplication by the
adjugate-over-determinant inverse, which agrees with the LU solve exactly
whenever the matrix is invertible (spec and claims speak of `M⁻¹`, `H⁻¹`).

The basis/quadrature layer (`gridStructures.hpp`: `LegendreBasis`,
`DGApprox::MassMatrix/DerivativeMatrix/CellProduct`) and the provider
objects (`DiffusionObj.hpp`, `SourceObj.hpp`) are not part of `src/`;
they enter the context `Ctx` as abstract functions, modelled from the
spec (§4.1, §4.5) where their shape matters.
-/

/-- Dynamic vector, Eigen `VectorXd` style: a total function with an extent
kept in the statements. -/
def Vec : Type := ℕ → ℚ

/-- Dynamic matrix, Eigen `MatrixXd` style. -/
def Mat : Type := ℕ → ℕ → ℚ

/-- Matrix product with explicit inner dimension `m`. -/
def matMul (m : ℕ) (A B : Mat) : Mat :=
  fun r c => ∑ j ∈ Finset.range m, A r j * B j c

/-- Matrix-vector product with explicit inner dimension `m`. -/
def matVec (m : ℕ) (A : Mat) (v : Vec) : Vec :=
  fun r => ∑ j ∈ Finset.range m, A r j * v j

/-- Equality of two matrices on an `R × C` index range. -/
def MatEqOn (R C : ℕ) (A B : Mat) : Prop :=
  ∀ r < R, ∀ c < C, A r c = B r c

/-- Equality of two vectors on the first `n` entries. -/
def VecEqOn (n : ℕ) (a b : Vec) : Prop := ∀ j < n, a j = b j

instance (R C : ℕ) (A B : Mat) : Decidable (MatEqOn R C A B) := by
  unfold MatEqOn; infer_instance

instance (n : ℕ) (a b : Vec) : Decidable (VecEqOn n a b) := by
  unfold VecEqOn; infer_instance

/-- Delete row `p` and column `q` (for Laplace expansion). -/
def minorAt (A : Mat) (p q : ℕ) : Mat :=
  fun i j => A (if i < p then i else i + 1) (if j < q then j else j + 1)

/-- Determinant of the leading `n × n` block, by first-column Laplace
expansion. -/
def detN : ℕ → Mat → ℚ
  | 0, _ => 1
  | n + 1, A =>
    ∑ i ∈ Finset.range (n + 1), (-1 : ℚ) ^ i * A i 0 * detN n (minorAt A i 0)

/-- Adjugate of the leading `n × n` block. -/
def adjN (n : ℕ) (A : Mat) : Mat :=
  fun i j => (-1 : ℚ) ^ (i + j) * detN (n - 1) (minorAt A j i)

/-- Inverse of the leading `n × n` block (zero matrix when singular,
matching the fact that an LU solve of a singular system is unspecified). -/
def invN (n : ℕ) (A : Mat) : Mat :=
  fun i j => adjN n A i j / detN n A

/-- Model of `Eigen::FullPivLU(A).solve(b)` for an `n × n` system:
`A⁻¹ · b`.  Exact for invertible `A`. -/
def luSolve (n : ℕ) (A : Mat) (b : Vec) : Vec := matVec n (invN n A) b

/-- Model of `Eigen::FullPivLU(A).solve(B)` with a matrix right-hand side. -/
def luSolveMat (n : ℕ) (A B : Mat) : Mat := matMul n (invN n A) B

/-- Block-diagonal tiling with row height `rh` and column width `cw`:
the translation of the loop `Big.block(var*rh, var*cw, rh, cw) = f var`
over a zero-initialised matrix. -/
def tileDiag (rh cw : ℕ) (f : ℕ → Mat) : Mat :=
  fun r c => if r / rh = c / cw then f (r / rh) (r % rh) (c % cw) else 0

/-- One `h × w` block written at `(r0, c0)` of an otherwise zero matrix;
summing these translates `+=` block accumulation. -/
def addBlock (r0 c0 h w : ℕ) (B : Mat) : Mat :=
  fun r c =>
    if r0 ≤ r ∧ r < r0 + h ∧ c0 ≤ c ∧ c < c0 + w then B (r - r0) (c - c0) else 0

/-- DG coefficient data: variable → cell → basis index → coefficient
(the `DGApprox::coeffs` triple indexing). -/
def Coeffs : Type := ℕ → ℕ → ℕ → ℚ

/-- The zero coefficient field (`delYVec.setZero()` etc.). -/
def zeroCoeffs : Coeffs := fun _ _ _ => 0

/-- Context of a `SystemSolver` instance: the configuration scalars, the
grid, the boundary data, and the abstract basis/quadrature/provider layer.

`phi i j x` is `u.Basis.phi( I_i, j )( x )`; `mass i`, `deriv i`,
`derivc i` are `MassMatrix(I_i)`, `DerivativeMatrix(I_i)` and
`DerivativeMatrix(I_i, c_fn)`; `cellProduct i f j` is
`CellProduct( I_i, f, phi(I_i, j) )`.  These live in `gridStructures.hpp`,
which is not under `src/`; they are kept abstract here.  The provider
callables mirror `DiffusionObj` / `SourceObj` (also outside `src/`):
per-cell Jacobian blocks and pointwise evaluation functions taking the
current `q` and `u` coefficient fields. -/
structure Ctx where
  k : ℕ
  nCells : ℕ
  nVar : ℕ
  xl : ℕ → ℚ
  xu : ℕ → ℚ
  lowerBound : ℚ
  upperBound : ℚ
  isLBoundDirichlet : Bool
  isUBoundDirichlet : Bool
  g_D : ℚ → ℚ → ℚ
  g_N : ℚ → ℚ → ℚ
  tau : ℚ → ℚ
  c_fn : ℚ → ℚ
  RHS : ℚ → ℚ
  phi : ℕ → ℕ → ℚ → ℚ
  mass : ℕ → Mat
  deriv : ℕ → Mat
  derivc : ℕ → Mat
  cellProduct : ℕ → (ℚ → ℚ) → ℕ → ℚ
  NLqMat : Coeffs → Coeffs → ℕ → Mat
  NLuMat : Coeffs → Coeffs → ℕ → Mat
  dFdqMat : Coeffs → Coeffs → ℕ → Mat
  dFduMat : Coeffs → Coeffs → ℕ → Mat
  kappaFn : ℕ → ℚ → Coeffs → Coeffs → ℚ
  sourceFn : ℕ → ℚ → Coeffs → Coeffs → ℚ

namespace Ctx

/-- The `nVar*(k+1)`, the per-cell width of one of the σ/q/u blocks. -/
def V (ctx : Ctx) : ℕ := ctx.nVar * (ctx.k + 1)

/-- The `I.x_l == BCs->LowerBound && BCs->isLBoundDirichlet` for cell `i`. -/
def lDir (ctx : Ctx) (i : ℕ) : Bool :=
  (ctx.xl i == ctx.lowerBound) && ctx.isLBoundDirichlet

/-- The `I.x_u == BCs->UpperBound && BCs->isUBoundDirichlet` for cell `i`. -/
def uDir (ctx : Ctx) (i : ℕ) : Bool :=
  (ctx.xu i == ctx.upperBound) && ctx.isUBoundDirichlet

/-- Lower boundary cell with Neumann data. -/
def lNeu (ctx : Ctx) (i : ℕ) : Bool :=
  (ctx.xl i == ctx.lowerBound) && !ctx.isLBoundDirichlet

/-- Upper boundary cell with Neumann data. -/
def uNeu (ctx : Ctx) (i : ℕ) : Bool :=
  (ctx.xu i == ctx.upperBound) && !ctx.isUBoundDirichlet

end Ctx

/-! ## Per-cell assembly (`SystemSolver::initialiseMatrices`) -/

/-- The `Avar`: `u.MassMatrix( I, Avar )`. -/
def Avar (ctx : Ctx) (i : ℕ) : Mat := ctx.mass i

/-- The `Bvar`: `u.DerivativeMatrix( I, Bvar )`. -/
def Bvar (ctx : Ctx) (i : ℕ) : Mat := ctx.deriv i

/-- The `Dvar`: `u.DerivativeMatrix( I, Dvar, c_fn )`, then `Dvar *= -1`,
`transposeInPlace`, then the two `tau`-weighted endpoint rank-one terms. -/
def Dvar (ctx : Ctx) (i : ℕ) : Mat :=
  fun r c =>
    -(ctx.derivc i c r)
    + ctx.tau (ctx.xl i) * ctx.phi i c (ctx.xl i) * ctx.phi i r (ctx.xl i)
    + ctx.tau (ctx.xu i) * ctx.phi i c (ctx.xu i) * ctx.phi i r (ctx.xu i)

/-- The `Cvar`: row 0 is `-phi(x_l)`, row 1 is `+phi(x_u)`, each zeroed on a
global Dirichlet boundary. -/
def Cvar (ctx : Ctx) (i : ℕ) : Mat :=
  fun r c =>
    if r = 0 then (if ctx.lDir i then 0 else -(ctx.phi i c (ctx.xl i)))
    else if r = 1 then (if ctx.uDir i then 0 else ctx.phi i c (ctx.xu i))
    else 0

/-- The `Evar`: column 0 is `phi(x_l) * (-c(x_l) - tau(x_l))`, column 1 is
`phi(x_u) * (c(x_u) - tau(x_u))`, each zeroed on a global Dirichlet
boundary. -/
def Evar (ctx : Ctx) (i : ℕ) : Mat :=
  fun r c =>
    if c = 0 then
      (if ctx.lDir i then 0
       else ctx.phi i r (ctx.xl i) * (-(ctx.c_fn (ctx.xl i)) - ctx.tau (ctx.xl i)))
    else if c = 1 then
      (if ctx.uDir i then 0
       else ctx.phi i r (ctx.xu i) * (ctx.c_fn (ctx.xu i) - ctx.tau (ctx.xu i)))
    else 0

/-- The `Gvar`: row 0 is `tau(x_l)*phi(x_l)`, row 1 is `tau(x_u)*phi(x_u)`,
rows touching a global Dirichlet boundary zeroed. -/
def Gvar (ctx : Ctx) (i : ℕ) : Mat :=
  fun r c =>
    if r = 0 then (if ctx.lDir i then 0 else ctx.tau (ctx.xl i) * ctx.phi i c (ctx.xl i))
    else if r = 1 then (if ctx.uDir i then 0 else ctx.tau (ctx.xu i) * ctx.phi i c (ctx.xu i))
    else 0

/-- The `Hvar`: `diag(-c(x_l)-tau(x_l), c(x_u)-tau(x_u))`, the off-diagonal
entries set to zero, corners touching a global Dirichlet boundary zeroed. -/
def Hvar (ctx : Ctx) (i : ℕ) : Mat :=
  fun r c =>
    if r = 0 ∧ c = 0 then
      (if ctx.lDir i then 0 else -(ctx.c_fn (ctx.xl i)) - ctx.tau (ctx.xl i))
    else if r = 1 ∧ c = 1 then
      (if ctx.uDir i then 0 else ctx.c_fn (ctx.xu i) - ctx.tau (ctx.xu i))
    else 0

/-- Cell matrix `A`: per-variable `Avar` blocks on the diagonal. -/
def Acell (ctx : Ctx) (i : ℕ) : Mat :=
  tileDiag (ctx.k + 1) (ctx.k + 1) (fun _ => Avar ctx i)

/-- Cell matrix `B`. -/
def Bcell (ctx : Ctx) (i : ℕ) : Mat :=
  tileDiag (ctx.k + 1) (ctx.k + 1) (fun _ => Bvar ctx i)

/-- Cell matrix `D`. -/
def Dcell (ctx : Ctx) (i : ℕ) : Mat :=
  tileDiag (ctx.k + 1) (ctx.k + 1) (fun _ => Dvar ctx i)

/-- Cell matrix `C` (`2*nVar × nVar*(k+1)`). -/
def Ccell (ctx : Ctx) (i : ℕ) : Mat :=
  tileDiag 2 (ctx.k + 1) (fun _ => Cvar ctx i)

/-- Cell matrix `E` (`nVar*(k+1) × 2*nVar`). -/
def Ecell (ctx : Ctx) (i : ℕ) : Mat :=
  tileDiag (ctx.k + 1) 2 (fun _ => Evar ctx i)

/-- Cell matrix `G` (`2*nVar × nVar*(k+1)`). -/
def Gcell (ctx : Ctx) (i : ℕ) : Mat :=
  tileDiag 2 (ctx.k + 1) (fun _ => Gvar ctx i)

/-- Cell matrix `H` (`2*nVar × 2*nVar`). -/
def Hcell (ctx : Ctx) (i : ℕ) : Mat :=
  tileDiag 2 2 (fun _ => Hvar ctx i)

/-- The `MBlocks[i]` matrix built in `initialiseMatrices`:
rows `[0, -A, -Bᵀ]`, `[B, 0, D]`, `[A, 0, 0]`; the `X`, `NLq`, `NLu` and
source blocks are added at the Jacobian step. -/
def MBlock (ctx : Ctx) (i : ℕ) : Mat :=
  fun r c =>
    let V := ctx.V
    if r < V then
      (if c < V then 0
       else if c < 2 * V then -(Acell ctx i r (c - V))
       else if c < 3 * V then -(Bcell ctx i (c - 2 * V) r)
       else 0)
    else if r < 2 * V then
      (if c < V then Bcell ctx i (r - V) c
       else if c < 2 * V then 0
       else if c < 3 * V then Dcell ctx i (r - V) (c - 2 * V)
       else 0)
    else if r < 3 * V then
      (if c < V then Acell ctx i (r - 2 * V) c else 0)
    else 0

/-- The `CEBlocks[i] = [Cᵀ ; E ; 0]` (`3*nVar*(k+1) × 2*nVar`). -/
def CEBlock (ctx : Ctx) (i : ℕ) : Mat :=
  fun r c =>
    let V := ctx.V
    if r < V then Ccell ctx i c r
    else if r < 2 * V then Ecell ctx i (r - V) c
    else 0

/-- The `CG_cellwise[i] = [C, 0, G]` (`2*nVar × 3*nVar*(k+1)`). -/
def CGBlock (ctx : Ctx) (i : ℕ) : Mat :=
  fun r c =>
    let V := ctx.V
    if c < V then Ccell ctx i r c
    else if c < 2 * V then 0
    else if c < 3 * V then Gcell ctx i r (c - 2 * V)
    else 0

/-- The `X` block: block-diagonal of `u.MassMatrix( I, Xsubmat, alphaF )` with
the constant weight `alphaF ≡ α`.  Modelled from the spec: `MassMatrix(I,w)`
is `⟨φᵢ, w·φⱼ⟩` (§4.1), so a constant weight `α` gives `α · mass`
(`gridStructures.hpp` is not under `src/`). -/
def Xcell (ctx : Ctx) (alpha : ℚ) (i : ℕ) : Mat :=
  tileDiag (ctx.k + 1) (ctx.k + 1) (fun _ => fun r c => alpha * ctx.mass i r c)

/-- The `RF_cellwise[i]` as recomputed by `updateBoundaryConditions(t)`
(and, with `t = 0`, as first built by `initialiseMatrices`): the σ-row
(first `nVar*(k+1)` entries) receives only Dirichlet boundary terms; the
u-row starts from the forcing projection `CellProduct(I, RHS, φ_{j%(k+1)})`
and subtracts the Dirichlet terms.  NOTE: the upper-boundary σ-row term
uses basis index `j%k+1`, which C++ parses as `(j%k)+1`
(`SystemSolver.cpp:384,557`); the translation keeps that.  (For `k = 0`
that C++ expression divides by zero, which is undefined behaviour; here
`j % 0 = j` is Lean's convention.) -/
def RFcell (ctx : Ctx) (t : ℚ) (i : ℕ) : Vec :=
  fun idx =>
    let V := ctx.V
    if idx < V then
      (if ctx.lDir i then
        -(ctx.phi i (idx % (ctx.k + 1)) (ctx.xl i)) * (-1) * ctx.g_D (ctx.xl i) t
       else 0)
      + (if ctx.uDir i then
        -(ctx.phi i ((idx % ctx.k) + 1) (ctx.xu i)) * 1 * ctx.g_D (ctx.xu i) t
         else 0)
    else if idx < 2 * V then
      ctx.cellProduct i ctx.RHS ((idx - V) % (ctx.k + 1))
      - (if ctx.lDir i then
          ctx.phi i ((idx - V) % (ctx.k + 1)) (ctx.xl i)
            * (-(ctx.c_fn (ctx.xl i)) - ctx.tau (ctx.xl i)) * ctx.g_D (ctx.xl i) t
         else 0)
      - (if ctx.uDir i then
          ctx.phi i ((idx - V) % (ctx.k + 1)) (ctx.xu i)
            * (ctx.c_fn (ctx.xu i) - ctx.tau (ctx.xu i)) * ctx.g_D (ctx.xu i) t
         else 0)
    else 0

/-- The `L_global` as recomputed by `updateBoundaryConditions(t)` (zeroed, then
`+= g_N` at the boundary face of each variable whenever that global
boundary is Neumann). -/
def Lglobal (ctx : Ctx) (t : ℚ) : Vec :=
  fun idx =>
    ∑ i ∈ Finset.range ctx.nCells, ∑ v ∈ Finset.range ctx.nVar,
      ((if ctx.lNeu i ∧ idx = v * (ctx.nCells + 1) + i then
          ctx.g_N ctx.lowerBound t else 0)
       + (if ctx.uNeu i ∧ idx = v * (ctx.nCells + 1) + i + 1 then
          ctx.g_N ctx.upperBound t else 0))

/-- The `HGlobalMat`: each cell `i` and variable `v` accumulates `Hvar` into the
`2×2` block at `(v*(nCells+1)+i, v*(nCells+1)+i)`. -/
def HglobalMat (ctx : Ctx) : Mat :=
  fun r c =>
    ∑ i ∈ Finset.range ctx.nCells, ∑ v ∈ Finset.range ctx.nVar,
      addBlock (v * (ctx.nCells + 1) + i) (v * (ctx.nCells + 1) + i) 2 2
        (Hvar ctx i) r c

/-! ## State-vector layout (`SystemSolver::mapDGtoSundials`) -/

/-- Offset of σ coefficient `(v, i, j)` in the flat state vector:
`var*(k+1) + i*3*nVar*(k+1)` plus the entry index. -/
def sigIdx (ctx : Ctx) (v i j : ℕ) : ℕ :=
  v * (ctx.k + 1) + i * 3 * ctx.nVar * (ctx.k + 1) + j

/-- Offset of q coefficient `(v, i, j)`:
`nVar*(k+1) + var*(k+1) + i*3*nVar*(k+1)` plus the entry index. -/
def qIdx (ctx : Ctx) (v i j : ℕ) : ℕ :=
  ctx.nVar * (ctx.k + 1) + v * (ctx.k + 1) + i * 3 * ctx.nVar * (ctx.k + 1) + j

/-- Offset of u coefficient `(v, i, j)`:
`2*nVar*(k+1) + var*(k+1) + i*3*nVar*(k+1)` plus the entry index. -/
def uIdx (ctx : Ctx) (v i j : ℕ) : ℕ :=
  2 * ctx.nVar * (ctx.k + 1) + v * (ctx.k + 1) + i * 3 * ctx.nVar * (ctx.k + 1) + j

/-- Base of the trace block: `Y + nVar*(nCells)*(3*k+3)`. -/
def lamBase (ctx : Ctx) : ℕ := ctx.nVar * ctx.nCells * (3 * ctx.k + 3)

/-- Offset of the trace entry with flat λ-index `f`; λ for `(v, face j)`
is read everywhere as `lambda[ var*(nCells+1) + j ]`. -/
def lamIdx (ctx : Ctx) (f : ℕ) : ℕ := lamBase ctx + f

/-- Total state length `nVar*3*nCells*(k+1) + nVar*(nCells+1)`. -/
def totalLen (ctx : Ctx) : ℕ :=
  ctx.nVar * 3 * ctx.nCells * (ctx.k + 1) + ctx.nVar * (ctx.nCells + 1)

/-- Sigma coefficients read from a bound state vector. -/
def sigOf (ctx : Ctx) (Y : Vec) : Coeffs := fun v i j => Y (sigIdx ctx v i j)

/-- q coefficients read from a bound state vector. -/
def qOf (ctx : Ctx) (Y : Vec) : Coeffs := fun v i j => Y (qIdx ctx v i j)

/-- u coefficients read from a bound state vector. -/
def uOf (ctx : Ctx) (Y : Vec) : Coeffs := fun v i j => Y (uIdx ctx v i j)

/-! ## Jacobian cell matrices (`SystemSolver::updateMForJacSolve`) -/

/-- The `MX` cell matrix assembled for the Jacobian solve: starting from
`MBlocks[i]`, the code overwrites block `(3,2)` with `NLq` and block
`(3,3)` with `NLu`, adds `X` (the α-weighted mass) to block `(2,3)`, and
then adds `Fq` to block `(2,2)` and also adds `Fu` to block `(2,2)` —
where **both** `Fq` and `Fu` are produced by `sourceObj->setdFdqMat`
(`SystemSolver.cpp:636-641`).  The providers are evaluated at
`newQ = q + delQ`, `newU = u + delU`. -/
def MXcell (ctx : Ctx) (alpha : ℚ) (Qc Uc dQ dU : Coeffs) (i : ℕ) : Mat :=
  fun r c =>
    let V := ctx.V
    let nQ : Coeffs := fun v ci j => Qc v ci j + dQ v ci j
    let nU : Coeffs := fun v ci j => Uc v ci j + dU v ci j
    if 2 * V ≤ r ∧ r < 3 * V ∧ V ≤ c ∧ c < 2 * V then
      ctx.NLqMat nQ nU i (r - 2 * V) (c - V)
    else if 2 * V ≤ r ∧ r < 3 * V ∧ 2 * V ≤ c ∧ c < 3 * V then
      ctx.NLuMat nQ nU i (r - 2 * V) (c - 2 * V)
    else
      MBlock ctx i r c
      + (if V ≤ r ∧ r < 2 * V ∧ 2 * V ≤ c ∧ c < 3 * V then
          Xcell ctx alpha i (r - V) (c - 2 * V) else 0)
      + (if V ≤ r ∧ r < 2 * V ∧ V ≤ c ∧ c < 2 * V then
          ctx.dFdqMat nQ nU i (r - V) (c - V)
          + ctx.dFdqMat nQ nU i (r - V) (c - V) else 0)

/-- The cell Jacobian as claim C1 states it (spec §4.6): rows
`[0, -Aᵥ, -Bᵥᵀ]`, `[Bᵥ, D + dF/dq, D + dF/du + α·M]`, `[Aᵥ, NLq, NLu]`,
with `M` the mass matrix.  This definition follows the spec's words, for
comparison with `MXcell`. -/
def specJacCell (ctx : Ctx) (alpha : ℚ) (Qc Uc : Coeffs) (i : ℕ) : Mat :=
  fun r c =>
    let V := ctx.V
    if r < V then
      (if c < V then 0
       else if c < 2 * V then -(Acell ctx i r (c - V))
       else if c < 3 * V then -(Bcell ctx i (c - 2 * V) r)
       else 0)
    else if r < 2 * V then
      (if c < V then Bcell ctx i (r - V) c
       else if c < 2 * V then
         Dcell ctx i (r - V) (c - V) + ctx.dFdqMat Qc Uc i (r - V) (c - V)
       else if c < 3 * V then
         Dcell ctx i (r - V) (c - 2 * V) + ctx.dFduMat Qc Uc i (r - V) (c - 2 * V)
           + alpha * Acell ctx i (r - V) (c - 2 * V)
       else 0)
    else if r < 3 * V then
      (if c < V then Acell ctx i (r - 2 * V) c
       else if c < 2 * V then ctx.NLqMat Qc Uc i (r - 2 * V) (c - V)
       else if c < 3 * V then ctx.NLuMat Qc Uc i (r - 2 * V) (c - 2 * V)
       else 0)
    else 0

/-- What the code actually assembles (the amended form of claim C1): rows
`[0, -Aᵥ, -Bᵥᵀ]`, `[Bᵥ, dF/dq + dF/dq, Dᵥ + α·Mᵥ]`, `[Aᵥ, NLq, NLu]` —
the middle block receives the source provider's `dF/dq` Jacobian twice
(both `Fq` and `Fu` are filled by `setdFdqMat`), the `dF/du` block is
never added, and `Dᵥ` does not appear in the middle column. -/
def amendedJacCell (ctx : Ctx) (alpha : ℚ) (Qc Uc : Coeffs) (i : ℕ) : Mat :=
  fun r c =>
    let V := ctx.V
    if r < V then
      (if c < V then 0
       else if c < 2 * V then -(Acell ctx i r (c - V))
       else if c < 3 * V then -(Bcell ctx i (c - 2 * V) r)
       else 0)
    else if r < 2 * V then
      (if c < V then Bcell ctx i (r - V) c
       else if c < 2 * V then
         ctx.dFdqMat Qc Uc i (r - V) (c - V) + ctx.dFdqMat Qc Uc i (r - V) (c - V)
       else if c < 3 * V then
         Dcell ctx i (r - V) (c - 2 * V) + alpha * Acell ctx i (r - V) (c - 2 * V)
       else 0)
    else if r < 3 * V then
      (if c < V then Acell ctx i (r - 2 * V) c
       else if c < 2 * V then ctx.NLqMat Qc Uc i (r - 2 * V) (c - V)
       else if c < 3 * V then ctx.NLuMat Qc Uc i (r - 2 * V) (c - 2 * V)
       else 0)
    else 0

/-! ## Static condensation (`SystemSolver::solveJacEq`) -/

/-- The `g1g2g3_cellwise[i]`: the `3*nVar*(k+1)`-slice of `g` for cell `i`
(`mapDGtoSundials` with the cellwise view: base `i*3*nVar*(k+1)`). -/
def cellRHS (ctx : Ctx) (g : Vec) (i : ℕ) : Vec :=
  fun j => g (i * 3 * ctx.nVar * (ctx.k + 1) + j)

/-- The `g4`: the trace part of `g`. -/
def g4of (ctx : Ctx) (g : Vec) : Vec := fun j => g (lamBase ctx + j)

/-- The `SQU_f[i] = factorisedM[i].solve(g1g2g3)`.  The deltas passed to the
provider are zero because `delYVec.setZero()` runs before
`updateMForJacSolve`, so the Jacobian is taken at the current iterate. -/
def SQUf (ctx : Ctx) (alpha : ℚ) (Qc Uc : Coeffs) (g : Vec) (i : ℕ) : Vec :=
  luSolve (3 * ctx.V) (MXcell ctx alpha Qc Uc zeroCoeffs zeroCoeffs i)
    (cellRHS ctx g i)

/-- The `SQU_0[i] = factorisedM[i].solve(CE)`. -/
def SQU0 (ctx : Ctx) (alpha : ℚ) (Qc Uc : Coeffs) (i : ℕ) : Mat :=
  luSolveMat (3 * ctx.V) (MXcell ctx alpha Qc Uc zeroCoeffs zeroCoeffs i)
    (CEBlock ctx i)

/-- The `K_cell = H_cellwise[i] - CG_cellwise[i] * SQU_0[i]`. -/
def KcellMat (ctx : Ctx) (alpha : ℚ) (Qc Uc : Coeffs) (i : ℕ) : Mat :=
  fun r c =>
    Hcell ctx i r c - matMul (3 * ctx.V) (CGBlock ctx i) (SQU0 ctx alpha Qc Uc i) r c

/-- The `K_global`: per cell and variable, the `2×2` variable-diagonal block of
`K_cell` accumulated at `(v*(nCells+1)+i, v*(nCells+1)+i)` — the same
pattern as `HglobalMat`. -/
def KglobalMat (ctx : Ctx) (alpha : ℚ) (Qc Uc : Coeffs) : Mat :=
  fun r c =>
    ∑ i ∈ Finset.range ctx.nCells, ∑ v ∈ Finset.range ctx.nVar,
      addBlock (v * (ctx.nCells + 1) + i) (v * (ctx.nCells + 1) + i) 2 2
        (fun a b => KcellMat ctx alpha Qc Uc i (v * 2 + a) (v * 2 + b)) r c

/-- The `F = g4 - Σᵢ (CG_cellwise[i] * SQU_f[i])`, the per-variable `2`-blocks
subtracted at `v*(nCells+1)+i`. -/
def Fvec (ctx : Ctx) (alpha : ℚ) (Qc Uc : Coeffs) (g : Vec) : Vec :=
  fun idx =>
    g4of ctx g idx
    - ∑ i ∈ Finset.range ctx.nCells, ∑ v ∈ Finset.range ctx.nVar,
        ∑ r ∈ Finset.range 2,
          (if idx = v * (ctx.nCells + 1) + i + r then
            matVec (3 * ctx.V) (CGBlock ctx i) (SQUf ctx alpha Qc Uc g i) (v * 2 + r)
           else 0)

/-- The `delLambda = FullPivLU(K_global).solve(F)`. -/
def delLamVec (ctx : Ctx) (alpha : ℚ) (Qc Uc : Coeffs) (g : Vec) : Vec :=
  luSolve (ctx.nVar * (ctx.nCells + 1)) (KglobalMat ctx alpha Qc Uc)
    (Fvec ctx alpha Qc Uc g)

/-- The `delLambdaCell` for cell `i`: entry `2*v + r` gathers
`delLambda[v*(nCells+1)+i+r]`. -/
def gatherLamCell (ctx : Ctx) (dl : Vec) (i : ℕ) : Vec :=
  fun idx => dl ((idx / 2) * (ctx.nCells + 1) + i + idx % 2)

/-- The `delSQU = SQU_f[i] - SQU_0[i] * delLambdaCell`. -/
def delSQUvec (ctx : Ctx) (alpha : ℚ) (Qc Uc : Coeffs) (g : Vec) (i : ℕ) : Vec :=
  fun j =>
    SQUf ctx alpha Qc Uc g i j
    - matVec (2 * ctx.nVar) (SQU0 ctx alpha Qc Uc i)
        (gatherLamCell ctx (delLamVec ctx alpha Qc Uc g) i) j

/-- The `SystemSolver::solveJacEq`: the returned `delY`.  The cell-interior
entries receive `delSQU` through the `delSig`/`delQ`/`delU` views (which
tile cell `i` contiguously at base `i*3*nVar*(k+1)`), the trace block
receives `delLambda`, and everything else stays at the `setZero` value. -/
def solveJacEq (ctx : Ctx) (alpha : ℚ) (Qc Uc : Coeffs) (g : Vec) : Vec :=
  fun idx =>
    if idx < ctx.nVar * ctx.nCells * (3 * ctx.k + 3) then
      delSQUvec ctx alpha Qc Uc g (idx / (3 * ctx.V)) (idx % (3 * ctx.V))
    else if idx < totalLen ctx then
      delLamVec ctx alpha Qc Uc g (idx - lamBase ctx)
    else 0

/-! ## Trace residual (`residual`, `SystemSolver.cpp:753-772`) and the
initial-condition closure (`SystemSolver::setInitialConditions`). -/

/-- The `CsGuL_global` accumulated cellwise from coefficient data `S` (σ) and
`U` (u): for each cell `i` and variable `v`, the 2-vector
`L.block(v*(nCells+1)+i) - C_i.block(v*2, v*(k+1)) * σ - G_i.block * u`
is added at `v*(nCells+1)+i`. -/
def CsGuLofCoeffs (ctx : Ctx) (t : ℚ) (S U : Coeffs) : Vec :=
  fun idx =>
    ∑ i ∈ Finset.range ctx.nCells, ∑ v ∈ Finset.range ctx.nVar,
      ∑ r ∈ Finset.range 2,
        (if idx = v * (ctx.nCells + 1) + i + r then
          Lglobal ctx t (v * (ctx.nCells + 1) + i + r)
          - (∑ j ∈ Finset.range (ctx.k + 1),
              Ccell ctx i (v * 2 + r) (v * (ctx.k + 1) + j) * S v i j)
          - (∑ j ∈ Finset.range (ctx.k + 1),
              Gcell ctx i (v * 2 + r) (v * (ctx.k + 1) + j) * U v i j)
         else 0)

/-- The trace block `res4` of the residual: `-λ + H_global.solve(CsGuL)`,
with σ, u and λ read from the bound state vector `Y`, after the boundary
refresh at time `t`. -/
def res4 (ctx : Ctx) (t : ℚ) (Y : Vec) : Vec :=
  fun f =>
    -(Y (lamIdx ctx f))
    + luSolve (ctx.nVar * (ctx.nCells + 1)) (HglobalMat ctx)
        (CsGuLofCoeffs ctx t (sigOf ctx Y) (uOf ctx Y)) f

/-- The spec's face-wise gather `Σᵢ [Cᵢ·σᵢ + Gᵢ·uᵢ]` (claim C3): each cell
scatters its `Cσ + Gu` 2-vector to its two faces, with no `L` inside the
sum.  This definition follows the spec's words, for comparison with
`CsGuLofCoeffs`. -/
def specTraceGather (ctx : Ctx) (S U : Coeffs) : Vec :=
  fun idx =>
    ∑ i ∈ Finset.range ctx.nCells, ∑ v ∈ Finset.range ctx.nVar,
      ∑ r ∈ Finset.range 2,
        (if idx = v * (ctx.nCells + 1) + i + r then
          (∑ j ∈ Finset.range (ctx.k + 1),
            Ccell ctx i (v * 2 + r) (v * (ctx.k + 1) + j) * S v i j)
          + (∑ j ∈ Finset.range (ctx.k + 1),
              Gcell ctx i (v * 2 + r) (v * (ctx.k + 1) + j) * U v i j)
         else 0)

/-- The spec's trace right-hand side `L − Σᵢ [Cᵢ·σᵢ + Gᵢ·uᵢ]`. -/
def specTraceRHS (ctx : Ctx) (t : ℚ) (S U : Coeffs) : Vec :=
  fun idx => Lglobal ctx t idx - specTraceGather ctx S U idx

/-- Lambda, i.e. λ, as computed by `setInitialConditions` after the projections:
`H_global.solve` of the cellwise `CsGuL` at `t = 0` (the `RF`/`L` data in
scope is the one `initialiseMatrices` built with `g_D(·, 0.0)`,
`g_N(·, 0.0)`). -/
def lamInit (ctx : Ctx) (S U : Coeffs) : Vec :=
  luSolve (ctx.nVar * (ctx.nCells + 1)) (HglobalMat ctx) (CsGuLofCoeffs ctx 0 S U)

/-- The projected source used by `setInitialConditions`
(`SystemSolver.cpp:205-209`): `CellProduct(I, sourceFunc, φ_j)` where
`sourceFunc( x ) = getSourceFunc(var)( x, q, q )` — the initial `q`
coefficients are passed in **both** the q- and the u-slot. -/
def FcwInit (ctx : Ctx) (Q : Coeffs) (v i j : ℕ) : ℚ :=
  ctx.cellProduct i (fun x => ctx.sourceFn v x Q Q) j

/-- The `dudt` as set by `setInitialConditions`:
`-B·σ - D·u - E·λ_cell + RF_u - F_cellwise`, per variable and cell, with
the per-variable blocks of the cell matrices and `λ_cell` gathered from
`lamInit`. -/
def dudtInit (ctx : Ctx) (S Q U : Coeffs) (v i j : ℕ) : ℚ :=
  -(∑ j2 ∈ Finset.range (ctx.k + 1),
      Bcell ctx i (v * (ctx.k + 1) + j) (v * (ctx.k + 1) + j2) * S v i j2)
  - (∑ j2 ∈ Finset.range (ctx.k + 1),
      Dcell ctx i (v * (ctx.k + 1) + j) (v * (ctx.k + 1) + j2) * U v i j2)
  - (∑ r ∈ Finset.range 2,
      Ecell ctx i (v * (ctx.k + 1) + j) (v * 2 + r)
        * lamInit ctx S U (v * (ctx.nCells + 1) + i + r))
  + RFcell ctx 0 i (ctx.nVar * (ctx.k + 1) + v * (ctx.k + 1) + j)
  - FcwInit ctx Q v i j

/-- The initial u-derivative claim C5 states: the explicit `R2` expression
with `F` the projected source at the initial state, i.e. the source
evaluated at `(x, q, u)` as the residual's `R2` does
(`SystemSolver.cpp:796,808`).  This definition follows the spec's words,
for comparison with `dudtInit`. -/
def specDudtInit (ctx : Ctx) (S Q U : Coeffs) (v i j : ℕ) : ℚ :=
  -(∑ j2 ∈ Finset.range (ctx.k + 1),
      Bcell ctx i (v * (ctx.k + 1) + j) (v * (ctx.k + 1) + j2) * S v i j2)
  - (∑ j2 ∈ Finset.range (ctx.k + 1),
      Dcell ctx i (v * (ctx.k + 1) + j) (v * (ctx.k + 1) + j2) * U v i j2)
  - (∑ r ∈ Finset.range 2,
      Ecell ctx i (v * (ctx.k + 1) + j) (v * 2 + r)
        * lamInit ctx S U (v * (ctx.nCells + 1) + i + r))
  + RFcell ctx 0 i (ctx.nVar * (ctx.k + 1) + v * (ctx.k + 1) + j)
  - ctx.cellProduct i (fun x => ctx.sourceFn v x Q U) j

/-- The full derivative vector `dYdt` written by `setInitialConditions`:
`resetCoeffs` zeroes every block (σ̇, q̇, u̇ and λ̇, the latter through the
rebound `dlamdt` view into `dYdt`), then only the u̇ block is assigned. -/
def dYdtInit (ctx : Ctx) (S Q U : Coeffs) : Vec :=
  fun idx =>
    if idx < ctx.nVar * ctx.nCells * (3 * ctx.k + 3) then
      (if 2 * ctx.V ≤ idx % (3 * ctx.V) then
        dudtInit ctx S Q U ((idx % (3 * ctx.V) - 2 * ctx.V) / (ctx.k + 1))
          (idx / (3 * ctx.V)) (idx % (ctx.k + 1))
       else 0)
    else 0

/-! ## Observable state of the solver touched by the `residual` entrypoint -/

/-- The `SystemSolver` members the residual entrypoint can touch:
`RF_cellwise`, `L_global`, the `total_steps` counter, and `resNorm`
(written only when `testing` is set). -/
structure SolverState where
  rf : ℕ → Vec
  lg : Vec
  total_steps : ℕ
  resNorm : ℚ
  testing : Bool

/-- The `SystemSolver::updateBoundaryConditions(t)` as a state transformer:
`L_global.setZero()` and `RF_cellwise[i].setZero()` run first, so the new
contents are computed from the context and `t` alone. -/
def updateBCState (ctx : Ctx) (t : ℚ) (s : SolverState) : SolverState :=
  { s with rf := fun i => RFcell ctx t i, lg := Lglobal ctx t }

/-- The solver-state effect of one `residual(t, Y, Y', resval)` call
(`SystemSolver.cpp:728-849`): it refreshes `RF`/`L` via
`updateBoundaryConditions(t)`, unconditionally increments `total_steps`,
and stores the residual norm into `resNorm` when `testing` is set.  (It
also writes the file `trial.plot` and diagnostic text to `stderr`; these
leave the modelled solver members unchanged.) -/
def residualStateEffect (ctx : Ctx) (t : ℚ) (normVal : ℚ) (s : SolverState) :
    SolverState :=
  let s1 := updateBCState ctx t s
  { s1 with
    total_steps := s1.total_steps + 1
    resNorm := if s1.testing then normVal else s1.resNorm }

/-- The integrator-facing return value of `residual`: the function body has
a single, unconditional `return 0` (`SystemSolver.cpp:848`); nothing that
the providers produce during the evaluation is inspected.  The argument
lists the provider outputs encountered during the evaluation, with `none`
standing for a non-finite (NaN/Inf) value, as for any fallible
computation. -/
def residualReturnCode (providerOutputs : List (Option ℚ)) : ℤ := 0

/-! ## Configuration reading (`runSolver`, `Solver.cpp:260-270`) -/

/-- A TOML value as far as the tolerance keys are concerned. -/
inductive TomlVal where
  | intVal (n : ℤ)
  | floatVal (q : ℚ)
  | strVal (s : String)
deriving DecidableEq

/-- A configuration table: a list of key/value pairs. -/
def TomlConfig : Type := List (String × TomlVal)

/-- The `toml::find(config, key)`: returns the value, or throws
`std::out_of_range` when the key is absent. -/
def tomlFind (cfg : TomlConfig) (key : String) : Except String TomlVal :=
  match cfg.find? (fun p => p.1 == key) with
  | some p => .ok p.2
  | none => .error ("key " ++ key ++ " not found")

/-- The `config.count(key)`. -/
def tomlCount (cfg : TomlConfig) (key : String) : ℕ :=
  (cfg.filter (fun p => p.1 == key)).length

/-- The `toml::value::as_floating()`: throws a type error unless the stored
value is a floating-point number. -/
def asFloating (v : TomlVal) : Except String ℚ :=
  match v with
  | .floatVal q => .ok q
  | _ => .error "type error: as_floating"

/-- The tolerance-reading fragment of `runSolver` (`Solver.cpp:260-264` for
`Relative_tolerance`; `266-270` is the same with `Absolute_tolerance`):
`auto relTol = toml::find(config, key);` runs first and throws when the
key is absent; only then does `if( !config.count(key) == 1 )` (i.e.
`count == 0`) select the default `1.0e-5`, with the `is_integer` branch
calling `as_floating` on the stored value. -/
def readTolerance (cfg : TomlConfig) (key : String) : Except String ℚ :=
  match tomlFind cfg key with
  | .error e => .error e
  | .ok v =>
    if tomlCount cfg key = 0 then .ok (1 / 100000)
    else
      match v with
      | .intVal _ => asFloating v
      | .floatVal q => .ok q
      | .strVal _ => .error (key ++ " specified incorrrectly")

/-- What claim C9 says the reader does: a configuration with the key
absent proceeds with the default `1e-5`. -/
def specTolerance (cfg : TomlConfig) (key : String) : Except String ℚ :=
  match tomlFind cfg key with
  | .error _ => .ok (1 / 100000)
  | .ok v =>
    match v with
    | .intVal n => .ok (n : ℚ)
    | .floatVal q => .ok q
    | .strVal _ => .error (key ++ " specified incorrrectly")

/-- The σ-row of the boundary forcing as claim C6 states it: for every
`j ∈ [0,k]` the entry gains `−φ_j(x_b)·n_x·g_D(x_b,t)`; i.e. the basis
index at the upper boundary is `j % (k+1)`, as the lower-boundary line
uses.  Identical to `RFcell` otherwise.  This definition follows the
spec's words, for comparison with `RFcell`. -/
def specRFcell (ctx : Ctx) (t : ℚ) (i : ℕ) : Vec :=
  fun idx =>
    let V := ctx.V
    if idx < V then
      (if ctx.lDir i then
        -(ctx.phi i (idx % (ctx.k + 1)) (ctx.xl i)) * (-1) * ctx.g_D (ctx.xl i) t
       else 0)
      + (if ctx.uDir i then
        -(ctx.phi i (idx % (ctx.k + 1)) (ctx.xu i)) * 1 * ctx.g_D (ctx.xu i) t
         else 0)
    else if idx < 2 * V then
      ctx.cellProduct i ctx.RHS ((idx - V) % (ctx.k + 1))
      - (if ctx.lDir i then
          ctx.phi i ((idx - V) % (ctx.k + 1)) (ctx.xl i)
            * (-(ctx.c_fn (ctx.xl i)) - ctx.tau (ctx.xl i)) * ctx.g_D (ctx.xl i) t
         else 0)
      - (if ctx.uDir i then
          ctx.phi i ((idx - V) % (ctx.k + 1)) (ctx.xu i)
            * (ctx.c_fn (ctx.xu i) - ctx.tau (ctx.xu i)) * ctx.g_D (ctx.xu i) t
         else 0)
    else 0

/-! ## Concrete instances used by witnesses and counterexamples -/

/-- A minimal concrete solver instance: one cell on `[0,1]`, one variable,
`k = 0`, Dirichlet at both ends, trivial coefficient functions, and
constant provider Jacobian blocks. -/
def exCtx0 : Ctx where
  k := 0
  nCells := 1
  nVar := 1
  xl := fun _ => 0
  xu := fun _ => 1
  lowerBound := 0
  upperBound := 1
  isLBoundDirichlet := true
  isUBoundDirichlet := true
  g_D := fun _ _ => 0
  g_N := fun _ _ => 0
  tau := fun _ => 0
  c_fn := fun _ => 0
  RHS := fun _ => 0
  phi := fun _ _ _ => 1
  mass := fun _ _ _ => 1
  deriv := fun _ _ _ => 0
  derivc := fun _ _ _ => 0
  cellProduct := fun _ f _ => f 0
  NLqMat := fun _ _ _ _ _ => 11
  NLuMat := fun _ _ _ _ _ => 13
  dFdqMat := fun _ _ _ _ _ => 5
  dFduMat := fun _ _ _ _ _ => 7
  kappaFn := fun _ _ _ _ => 0
  sourceFn := fun _ _ _ U => U 0 0 0

/-- Variant for claim C6: `k = 1`, Neumann below, Dirichlet above,
`g_D ≡ 1`, and basis functions with `φ_0 ≠ φ_1` at the upper endpoint. -/
def exCtx6 : Ctx :=
  { exCtx0 with
    k := 1
    isLBoundDirichlet := false
    g_D := fun _ _ => 1
    phi := fun _ j _ => (j : ℚ) + 1 }

/-- Variant for claim C3: two cells `[0,1]`, `[1,2]`. -/
def exCtx3 : Ctx :=
  { exCtx0 with
    nCells := 2
    upperBound := 2
    xl := fun i => if i = 0 then 0 else 1
    xu := fun i => if i = 0 then 1 else 2 }

/-- A concrete solver state. -/
def exState : SolverState where
  rf := fun _ _ => 0
  lg := fun _ => 0
  total_steps := 0
  resNorm := 0
  testing := false

/-- The initial u-coefficients used for the C5 evaluation (`u₀ ≡ 1`,
distinct from `q₀ ≡ 0`, with a u-dependent source). -/
def exOneCoeffs : Coeffs := fun _ _ _ => 1

/-! ## Claim theorems -/

/-- C4: for every variable `v`, cell `i` and block `s ∈ {0,1,2}`, the
coefficients sit at contiguous offsets `i·3N(k+1) + s·N(k+1) + v·(k+1)`,
and the trace value for variable `v` at face `jf` sits at
`3N(k+1)·Nc + v·(Nc+1) + jf`, as bound by `mapDGtoSundials`. -/
theorem c4_block_layout (ctx : Ctx) (v i j jf : ℕ) :
    sigIdx ctx v i j
      = i * (3 * ctx.nVar * (ctx.k + 1)) + 0 * (ctx.nVar * (ctx.k + 1))
        + v * (ctx.k + 1) + j
    ∧ qIdx ctx v i j
      = i * (3 * ctx.nVar * (ctx.k + 1)) + 1 * (ctx.nVar * (ctx.k + 1))
        + v * (ctx.k + 1) + j
    ∧ uIdx ctx v i j
      = i * (3 * ctx.nVar * (ctx.k + 1)) + 2 * (ctx.nVar * (ctx.k + 1))
        + v * (ctx.k + 1) + j
    ∧ lamIdx ctx (v * (ctx.nCells + 1) + jf)
      = 3 * ctx.nVar * (ctx.k + 1) * ctx.nCells + v * (ctx.nCells + 1) + jf := by
  refine ⟨?_, ?_, ?_, ?_⟩ <;>
    simp only [sigIdx, qIdx, uIdx, lamIdx, lamBase] <;> ring

/-- C8 counterexample: it is not the case that a provider producing a
non-finite value (`none`) during the evaluation makes the residual
entrypoint return a nonzero code — the entrypoint returns `0` even then. -/
theorem c8_counterexample :
    ¬ (∀ outs : List (Option ℚ), none ∈ outs → residualReturnCode outs ≠ 0) := by
  intro h
  exact h [none] (List.mem_singleton.mpr rfl) rfl

/-- C8 (amended): the residual entrypoint returns the success code `0`
unconditionally; provider NaN/Inf is never detected and no failure code is
propagated to the integrator. -/
theorem c8_return_always_zero (outs : List (Option ℚ)) :
    residualReturnCode outs = 0 := rfl

/-- C9: with the `Relative_tolerance` (or `Absolute_tolerance`) key absent,
the reader aborts — `toml::find` throws before the defaulting branch can
run — while the claimed behaviour (`specTolerance`) proceeds with the
default `1e-5`. -/
theorem c9_missing_tolerance_key_aborts :
    readTolerance [] "Relative_tolerance"
        = .error "key Relative_tolerance not found"
    ∧ readTolerance [] "Absolute_tolerance"
        = .error "key Absolute_tolerance not found"
    ∧ specTolerance [] "Relative_tolerance" = .ok (1 / 100000)
    ∧ readTolerance [("t_final", TomlVal.floatVal 1)] "Relative_tolerance"
        = .error "key Relative_tolerance not found" := by
  refine ⟨rfl, rfl, rfl, rfl⟩

/-- C10: after assembly, `updateBoundaryConditions(t)` zeroes `RF`/`L`
before accumulating, so the produced contents depend only on `t` (not on
the prior contents), and running it twice with the same `t` leaves the
same state as running it once. -/
theorem c10_updateBC_idempotent (ctx : Ctx) (t : ℚ) (s s2 : SolverState) :
    updateBCState ctx t (updateBCState ctx t s) = updateBCState ctx t s
    ∧ (updateBCState ctx t s).rf = (updateBCState ctx t s2).rf
    ∧ (updateBCState ctx t s).lg = (updateBCState ctx t s2).lg := by
  refine ⟨rfl, rfl, rfl⟩

/-- C7 counterexample: the residual entrypoint does not leave the solver's
counters unchanged — `total_steps` is incremented by the call. -/
theorem c7_counterexample :
    (residualStateEffect exCtx0 0 0 exState).total_steps
      ≠ exState.total_steps := by
  simp [residualStateEffect, updateBCState, exState]

/-- C7 (amended): with fixed providers the residual evaluation's effect on
the solver state is exactly: `RF_cellwise`/`L_global` are refreshed from
`t`, the `total_steps` counter is incremented, and `resNorm` is updated
when `testing` is set; `testing` itself is unchanged.  (The call also
writes the diagnostic file `trial.plot` and text to `stderr`, outside the
modelled members.) -/
theorem c7_residual_state_effect (ctx : Ctx) (t normVal : ℚ) (s : SolverState) :
    (residualStateEffect ctx t normVal s).rf = (fun i => RFcell ctx t i)
    ∧ (residualStateEffect ctx t normVal s).lg = Lglobal ctx t
    ∧ (residualStateEffect ctx t normVal s).total_steps = s.total_steps + 1
    ∧ (residualStateEffect ctx t normVal s).resNorm
      = (if s.testing then normVal else s.resNorm)
    ∧ (residualStateEffect ctx t normVal s).testing = s.testing := by
  refine ⟨rfl, rfl, rfl, rfl, rfl⟩

/-- The `X` block is pointwise the α-weighted mass block `α · A`. -/
lemma Xcell_eq_alpha_mass (ctx : Ctx) (alpha : ℚ) (i r c : ℕ) :
    Xcell ctx alpha i r c = alpha * Acell ctx i r c := by
  unfold Xcell Acell tileDiag Avar
  split_ifs <;> ring

/-- C1 counterexample: on a concrete one-cell, one-variable, `k = 0`
instance with constant provider blocks (`dF/dq = 5`, `dF/du = 7`,
`NLq = 11`, `NLu = 13`) and shift `α = 2`, the assembled `MX` cell matrix
differs from the block matrix claim C1 describes: the middle block holds
`5 + 5 = 10` (the `dF/dq` block added twice) instead of `D + dF/dq = 5`. -/
theorem c1_counterexample :
    ¬ MatEqOn 3 3 (MXcell exCtx0 2 zeroCoeffs exOneCoeffs zeroCoeffs zeroCoeffs 0)
        (specJacCell exCtx0 2 zeroCoeffs exOneCoeffs 0) := by
  intro h
  have h11 := h 1 (by norm_num) 1 (by norm_num)
  norm_num [MXcell, specJacCell, MBlock, exCtx0, Ctx.V, zeroCoeffs, exOneCoeffs,
    Acell, Bcell, Dcell, Xcell, tileDiag, Avar, Bvar, Dvar] at h11

/-- C1 (amended): the cell-local Jacobian matrix assembled for the linear
solve equals the 3×3 block matrix with rows `[0, −Aᵥ, −Bᵥᵀ]`,
`[Bᵥ, dF/dq + dF/dq, Dᵥ + α·Mᵥ]`, `[Aᵥ, NLq, NLu]`: both source-Jacobian
contributions are produced by the provider's `dF/dq` routine and both land
in the middle block, the `dF/du` block is never added, and `Dᵥ` does not
appear in the middle column. -/
theorem c1_jacobian_blocks (ctx : Ctx) (alpha : ℚ) (Qc Uc : Coeffs) (i : ℕ) :
    ∀ r < 3 * ctx.V, ∀ c < 3 * ctx.V,
      MXcell ctx alpha Qc Uc zeroCoeffs zeroCoeffs i r c
        = amendedJacCell ctx alpha Qc Uc i r c := by
  have hQ : (fun v ci j => Qc v ci j + zeroCoeffs v ci j) = Qc := by
    funext v ci j; simp [zeroCoeffs]
  have hU : (fun v ci j => Uc v ci j + zeroCoeffs v ci j) = Uc := by
    funext v ci j; simp [zeroCoeffs]
  intro r hr c hc
  unfold MXcell amendedJacCell MBlock
  simp only [hQ, hU, Xcell_eq_alpha_mass]
  split_ifs <;> first | rfl | omega | ring

/-- C1 witness: the amended theorem applied at the concrete instance. -/
theorem c1_witness :
    (1 : ℕ) < 3 * exCtx0.V ∧
      MXcell exCtx0 2 zeroCoeffs exOneCoeffs zeroCoeffs zeroCoeffs 0 1 1
        = amendedJacCell exCtx0 2 zeroCoeffs exOneCoeffs 0 1 1 :=
  ⟨by decide,
   c1_jacobian_blocks exCtx0 2 zeroCoeffs exOneCoeffs 0 1 (by decide) 1 (by decide)⟩

/-- C6: at an upper global Dirichlet boundary the σ-row of `RF` receives
`−φ_{(j%k)+1}(x_u)·g_D` — the C++ expression `j%k+1` parses as `(j%k)+1` —
instead of the claimed `−φ_j(x_u)·g_D`.  On the concrete instance
(`k = 1`, `φ_j ≡ j+1`, `g_D ≡ 1`, upper boundary Dirichlet) the entry
`j = 0` becomes `−φ_1(x_u) = −2` where the claim requires `−φ_0(x_u) = −1`;
`specRFcell` is the claimed vector. -/
theorem c6_upper_sigma_row_index :
    RFcell exCtx6 1 0 0 = -2 ∧ specRFcell exCtx6 1 0 0 = -1 := by
  constructor <;>
    norm_num [RFcell, specRFcell, exCtx6, exCtx0, Ctx.V, Ctx.lDir, Ctx.uDir]

/-- C5: `setInitialConditions` evaluates the projected source with the
initial `q` coefficients passed in both provider slots
(`getSourceFunc(var)(x, q, q)`, `SystemSolver.cpp:205`), not at the
initial state `(q, u)` as the residual's `R2` does.  On the concrete
instance (`f = u`, `u₀ ≡ 1`, `q₀ ≡ 0`, everything else trivial) the code
sets `u̇(0) = 0` while the claimed `R2` expression gives `−1`. -/
theorem c5_source_arguments_swapped :
    dudtInit exCtx0 zeroCoeffs zeroCoeffs exOneCoeffs 0 0 0 = 0
    ∧ specDudtInit exCtx0 zeroCoeffs zeroCoeffs exOneCoeffs 0 0 0 = -1 := by
  constructor <;>
    norm_num [dudtInit, specDudtInit, FcwInit, exCtx0, zeroCoeffs, exOneCoeffs,
      Ctx.V, Ctx.lDir, Ctx.uDir, Bcell, Dcell, Ecell, tileDiag, Bvar, Dvar, Evar,
      RFcell, Finset.sum_range_succ, Finset.sum_range_zero]

/-- Recovery of cell and offset from a flat cell-block index. -/
lemma cellIndex_recover (ctx : Ctx) (i off : ℕ) (hi : i < ctx.nCells)
    (hoff : off < 3 * ctx.V) :
    (i * 3 * ctx.nVar * (ctx.k + 1) + off) / (3 * ctx.V) = i
    ∧ (i * 3 * ctx.nVar * (ctx.k + 1) + off) % (3 * ctx.V) = off
    ∧ i * 3 * ctx.nVar * (ctx.k + 1) + off
        < ctx.nVar * ctx.nCells * (3 * ctx.k + 3) := by
  have hW : i * 3 * ctx.nVar * (ctx.k + 1) = (3 * ctx.V) * i := by
    unfold Ctx.V; ring
  have h3 : 0 < 3 * ctx.V := lt_of_le_of_lt (Nat.zero_le _) hoff
  refine ⟨?_, ?_, ?_⟩
  · rw [hW, Nat.mul_add_div h3, Nat.div_eq_of_lt hoff, Nat.add_zero]
  · rw [hW, Nat.mul_add_mod, Nat.mod_eq_of_lt hoff]
  · have hTot : ctx.nVar * ctx.nCells * (3 * ctx.k + 3) = (3 * ctx.V) * ctx.nCells := by
      unfold Ctx.V; ring
    rw [hW, hTot]
    calc (3 * ctx.V) * i + off < (3 * ctx.V) * i + 3 * ctx.V := by omega
    _ = (3 * ctx.V) * (i + 1) := by ring
    _ ≤ (3 * ctx.V) * ctx.nCells := Nat.mul_le_mul_left _ hi

/-- C2: `solveJacEq` computes, per cell, the particular solve
`Σᵢ = M_cell(α)⁻¹·g_cell` and the homogeneous solve `Σᵢ⁰ = M_cell(α)⁻¹·CE`,
forms `K_cell = H_cell − CG·Σᵢ⁰`, accumulates its variable-diagonal `2×2`
blocks into `K_global` in the pattern of `H_global`, builds
`F = g4 − Σᵢ CG·Σᵢ`, solves `K_global·δλ = F` by dense LU, and returns
per-cell `δ(σ,q,u) = Σᵢ − Σᵢ⁰·δλ_cell` in the cell block of `delY` and
`δλ` in the trace block. -/
theorem c2_static_condensation (ctx : Ctx) (alpha : ℚ) (Qc Uc : Coeffs)
    (g : Vec) (i off f r c : ℕ) (hi : i < ctx.nCells) (hoff : off < 3 * ctx.V)
    (hf : f < ctx.nVar * (ctx.nCells + 1)) :
    solveJacEq ctx alpha Qc Uc g (i * 3 * ctx.nVar * (ctx.k + 1) + off)
      = SQUf ctx alpha Qc Uc g i off
        - matVec (2 * ctx.nVar) (SQU0 ctx alpha Qc Uc i)
            (gatherLamCell ctx (delLamVec ctx alpha Qc Uc g) i) off
    ∧ solveJacEq ctx alpha Qc Uc g (lamIdx ctx f)
      = luSolve (ctx.nVar * (ctx.nCells + 1)) (KglobalMat ctx alpha Qc Uc)
          (Fvec ctx alpha Qc Uc g) f
    ∧ SQUf ctx alpha Qc Uc g i
      = luSolve (3 * ctx.V) (MXcell ctx alpha Qc Uc zeroCoeffs zeroCoeffs i)
          (cellRHS ctx g i)
    ∧ SQU0 ctx alpha Qc Uc i
      = luSolveMat (3 * ctx.V) (MXcell ctx alpha Qc Uc zeroCoeffs zeroCoeffs i)
          (CEBlock ctx i)
    ∧ KglobalMat ctx alpha Qc Uc r c
      = ∑ i2 ∈ Finset.range ctx.nCells, ∑ v ∈ Finset.range ctx.nVar,
          addBlock (v * (ctx.nCells + 1) + i2) (v * (ctx.nCells + 1) + i2) 2 2
            (fun a b =>
              Hcell ctx i2 (v * 2 + a) (v * 2 + b)
              - matMul (3 * ctx.V) (CGBlock ctx i2) (SQU0 ctx alpha Qc Uc i2)
                  (v * 2 + a) (v * 2 + b)) r c
    ∧ Fvec ctx alpha Qc Uc g f
      = g4of ctx g f
        - ∑ i2 ∈ Finset.range ctx.nCells, ∑ v ∈ Finset.range ctx.nVar,
            ∑ r2 ∈ Finset.range 2,
              (if f = v * (ctx.nCells + 1) + i2 + r2 then
                matVec (3 * ctx.V) (CGBlock ctx i2) (SQUf ctx alpha Qc Uc g i2)
                  (v * 2 + r2)
               else 0) := by
  obtain ⟨hdiv, hmod, hlt⟩ := cellIndex_recover ctx i off hi hoff
  refine ⟨?_, ?_, rfl, rfl, rfl, rfl⟩
  · unfold solveJacEq
    rw [if_pos hlt, hdiv, hmod]
    rfl
  · unfold solveJacEq lamIdx
    have hbase : lamBase ctx = ctx.nVar * ctx.nCells * (3 * ctx.k + 3) := rfl
    have h1 : ¬ (lamBase ctx + f < ctx.nVar * ctx.nCells * (3 * ctx.k + 3)) := by
      omega
    have h2 : lamBase ctx + f < totalLen ctx := by
      have h3 : totalLen ctx
          = ctx.nVar * ctx.nCells * (3 * ctx.k + 3) + ctx.nVar * (ctx.nCells + 1) := by
        unfold totalLen; ring
      omega
    rw [if_neg h1, if_pos h2]
    have h4 : lamBase ctx + f - lamBase ctx = f := by omega
    rw [h4]
    rfl

/-- C2 witness: the theorem applied at the concrete instance. -/
theorem c2_witness :
    (0 : ℕ) < exCtx0.nCells ∧ (0 : ℕ) < 3 * exCtx0.V
    ∧ (0 : ℕ) < exCtx0.nVar * (exCtx0.nCells + 1)
    ∧ (solveJacEq exCtx0 2 zeroCoeffs zeroCoeffs (fun _ => 1)
          (0 * 3 * exCtx0.nVar * (exCtx0.k + 1) + 0)
        = SQUf exCtx0 2 zeroCoeffs zeroCoeffs (fun _ => 1) 0 0
          - matVec (2 * exCtx0.nVar) (SQU0 exCtx0 2 zeroCoeffs zeroCoeffs 0)
              (gatherLamCell exCtx0
                (delLamVec exCtx0 2 zeroCoeffs zeroCoeffs (fun _ => 1)) 0) 0) := by
  refine ⟨by decide, by decide, by decide, ?_⟩
  exact (c2_static_condensation exCtx0 2 zeroCoeffs zeroCoeffs (fun _ => 1)
    0 0 0 0 0 (by decide) (by decide) (by decide)).1

/-- Euclidean uniqueness: `v*m + s = w*m + t` with `s, t < m` forces
`v = w` and `s = t`. -/
lemma mulAdd_inj {m v w s t : ℕ} (hs : s < m) (ht : t < m)
    (h : v * m + s = w * m + t) : v = w ∧ s = t := by
  have hm : 0 < m := lt_of_le_of_lt (Nat.zero_le s) hs
  have h2 : m * v + s = m * w + t := by
    rw [Nat.mul_comm m v, Nat.mul_comm m w]; exact h
  have hdiv := congrArg (fun x => x / m) h2
  simp only [Nat.mul_add_div hm] at hdiv
  rw [Nat.div_eq_of_lt hs, Nat.div_eq_of_lt ht] at hdiv
  have hmod := congrArg (fun x => x % m) h2
  simp only [Nat.mul_add_mod] at hmod
  rw [Nat.mod_eq_of_lt hs, Nat.mod_eq_of_lt ht] at hmod
  omega

/-- A triple range sum of the indicator of one `(i0, v0, r0)` is `1`. -/
lemma tripleSumOne (nC nV i0 v0 r0 : ℕ) (hi : i0 < nC) (hv : v0 < nV)
    (hr : r0 < 2) :
    (∑ i ∈ Finset.range nC, ∑ v ∈ Finset.range nV, ∑ r ∈ Finset.range 2,
      if i = i0 ∧ v = v0 ∧ r = r0 then (1 : ℚ) else 0) = 1 := by
  have hinner : ∀ i v : ℕ,
      (∑ r ∈ Finset.range 2, if i = i0 ∧ v = v0 ∧ r = r0 then (1 : ℚ) else 0)
        = if i = i0 ∧ v = v0 then 1 else 0 := by
    intro i v
    interval_cases r0 <;>
      by_cases h1 : i = i0 <;> by_cases h2 : v = v0 <;>
        simp [h1, h2, Finset.sum_range_succ]
  have hmid : ∀ i : ℕ,
      (∑ v ∈ Finset.range nV, if i = i0 ∧ v = v0 then (1 : ℚ) else 0)
        = if i = i0 then 1 else 0 := by
    intro i
    by_cases h1 : i = i0 <;> simp [h1, Finset.sum_ite_eq', hv]
  simp only [hinner, hmid, Finset.sum_ite_eq', Finset.mem_range]
  simp [hi]

/-- The lower-boundary face `v0*(Nc+1)` is scattered to by exactly one
(cell, variable, side) triple. -/
lemma hits_lower (ctx : Ctx) (v0 : ℕ) (hv : v0 < ctx.nVar)
    (hc : 0 < ctx.nCells) :
    (∑ i ∈ Finset.range ctx.nCells, ∑ v ∈ Finset.range ctx.nVar,
      ∑ r ∈ Finset.range 2,
        if v0 * (ctx.nCells + 1) = v * (ctx.nCells + 1) + i + r then (1 : ℚ)
        else 0) = 1 := by
  refine Eq.trans ?_ (tripleSumOne ctx.nCells ctx.nVar 0 v0 0 hc hv (by omega))
  refine Finset.sum_congr rfl (fun i hi => ?_)
  refine Finset.sum_congr rfl (fun v hv2 => ?_)
  refine Finset.sum_congr rfl (fun r hr2 => ?_)
  simp only [Finset.mem_range] at hi hv2 hr2
  refine if_congr ?_ rfl rfl
  constructor
  · intro h
    have h2 : v0 * (ctx.nCells + 1) + 0 = v * (ctx.nCells + 1) + (i + r) := by
      omega
    obtain ⟨h3, h4⟩ := mulAdd_inj (by omega) (by omega) h2
    exact ⟨by omega, h3.symm, by omega⟩
  · rintro ⟨rfl, rfl, rfl⟩
    omega

/-- The upper-boundary face `v0*(Nc+1) + Nc` is scattered to by exactly
one (cell, variable, side) triple. -/
lemma hits_upper (ctx : Ctx) (v0 : ℕ) (hv : v0 < ctx.nVar)
    (hc : 0 < ctx.nCells) :
    (∑ i ∈ Finset.range ctx.nCells, ∑ v ∈ Finset.range ctx.nVar,
      ∑ r ∈ Finset.range 2,
        if v0 * (ctx.nCells + 1) + ctx.nCells
            = v * (ctx.nCells + 1) + i + r then (1 : ℚ)
        else 0) = 1 := by
  refine Eq.trans ?_
    (tripleSumOne ctx.nCells ctx.nVar (ctx.nCells - 1) v0 1 (by omega) hv
      (by omega))
  refine Finset.sum_congr rfl (fun i hi => ?_)
  refine Finset.sum_congr rfl (fun v hv2 => ?_)
  refine Finset.sum_congr rfl (fun r hr2 => ?_)
  simp only [Finset.mem_range] at hi hv2 hr2
  refine if_congr ?_ rfl rfl
  constructor
  · intro h
    have h2 : v0 * (ctx.nCells + 1) + ctx.nCells
        = v * (ctx.nCells + 1) + (i + r) := by omega
    obtain ⟨h3, h4⟩ := mulAdd_inj (by omega) (by omega) h2
    exact ⟨by omega, h3.symm, by omega⟩
  · rintro ⟨hri, rfl, rfl⟩
    omega

/-- Under the grid-geometry invariant (`x_l` hits the global lower bound
only on cell `0`, `x_u` hits the upper bound only on the last cell), the
cellwise-accumulated `CsGuL` vector equals the spec's
`L − Σᵢ(Cᵢσᵢ + Gᵢuᵢ)`: the per-cell loop scatters `L` once per touching
cell — twice at interior faces — but `L` vanishes there. -/
lemma CsGuL_eq_specTraceRHS (ctx : Ctx)
    (hLb : ∀ i < ctx.nCells, ((ctx.xl i = ctx.lowerBound) ↔ i = 0))
    (hUb : ∀ i < ctx.nCells, ((ctx.xu i = ctx.upperBound) ↔ i + 1 = ctx.nCells))
    (t : ℚ) (S U : Coeffs) (idx : ℕ) :
    CsGuLofCoeffs ctx t S U idx = specTraceRHS ctx t S U idx := by
  unfold CsGuLofCoeffs specTraceRHS specTraceGather
  have step1 :
      (∑ i ∈ Finset.range ctx.nCells, ∑ v ∈ Finset.range ctx.nVar,
        ∑ r ∈ Finset.range 2,
          (if idx = v * (ctx.nCells + 1) + i + r then
            Lglobal ctx t (v * (ctx.nCells + 1) + i + r)
            - (∑ j ∈ Finset.range (ctx.k + 1),
                Ccell ctx i (v * 2 + r) (v * (ctx.k + 1) + j) * S v i j)
            - (∑ j ∈ Finset.range (ctx.k + 1),
                Gcell ctx i (v * 2 + r) (v * (ctx.k + 1) + j) * U v i j)
           else 0))
      = (∑ i ∈ Finset.range ctx.nCells, ∑ v ∈ Finset.range ctx.nVar,
          ∑ r ∈ Finset.range 2,
            (if idx = v * (ctx.nCells + 1) + i + r then Lglobal ctx t idx else 0))
        - (∑ i ∈ Finset.range ctx.nCells, ∑ v ∈ Finset.range ctx.nVar,
            ∑ r ∈ Finset.range 2,
              (if idx = v * (ctx.nCells + 1) + i + r then
                (∑ j ∈ Finset.range (ctx.k + 1),
                  Ccell ctx i (v * 2 + r) (v * (ctx.k + 1) + j) * S v i j)
                + (∑ j ∈ Finset.range (ctx.k + 1),
                    Gcell ctx i (v * 2 + r) (v * (ctx.k + 1) + j) * U v i j)
               else 0)) := by
    rw [← Finset.sum_sub_distrib]
    refine Finset.sum_congr rfl (fun i _ => ?_)
    rw [← Finset.sum_sub_distrib]
    refine Finset.sum_congr rfl (fun v _ => ?_)
    rw [← Finset.sum_sub_distrib]
    refine Finset.sum_congr rfl (fun r _ => ?_)
    by_cases h : idx = v * (ctx.nCells + 1) + i + r
    · rw [if_pos h, if_pos h, if_pos h, ← h]; ring
    · simp [h]
  have step2 :
      (∑ i ∈ Finset.range ctx.nCells, ∑ v ∈ Finset.range ctx.nVar,
        ∑ r ∈ Finset.range 2,
          (if idx = v * (ctx.nCells + 1) + i + r then Lglobal ctx t idx else 0))
      = Lglobal ctx t idx := by
    have hfac :
        (∑ i ∈ Finset.range ctx.nCells, ∑ v ∈ Finset.range ctx.nVar,
          ∑ r ∈ Finset.range 2,
            (if idx = v * (ctx.nCells + 1) + i + r then Lglobal ctx t idx else 0))
        = Lglobal ctx t idx
          * (∑ i ∈ Finset.range ctx.nCells, ∑ v ∈ Finset.range ctx.nVar,
              ∑ r ∈ Finset.range 2,
                (if idx = v * (ctx.nCells + 1) + i + r then (1 : ℚ) else 0)) := by
      rw [Finset.mul_sum]
      refine Finset.sum_congr rfl (fun i _ => ?_)
      rw [Finset.mul_sum]
      refine Finset.sum_congr rfl (fun v _ => ?_)
      rw [Finset.mul_sum]
      refine Finset.sum_congr rfl (fun r _ => ?_)
      split_ifs <;> ring
    rw [hfac]
    by_cases hL0 : Lglobal ctx t idx = 0
    · rw [hL0]; ring
    · have hL0' := hL0
      unfold Lglobal at hL0'
      obtain ⟨i0, hi0, hI⟩ := Finset.exists_ne_zero_of_sum_ne_zero hL0'
      obtain ⟨v0, hv0, hIv⟩ := Finset.exists_ne_zero_of_sum_ne_zero hI
      simp only [Finset.mem_range] at hi0 hv0
      by_cases hA : (ctx.lNeu i0 = true ∧ idx = v0 * (ctx.nCells + 1) + i0)
      · have hxl : ctx.xl i0 = ctx.lowerBound := by
          have := hA.1
          unfold Ctx.lNeu at this
          rw [Bool.and_eq_true] at this
          exact eq_of_beq this.1
        have hi00 : i0 = 0 := (hLb i0 hi0).mp hxl
        have hidx : idx = v0 * (ctx.nCells + 1) := by omega
        subst hidx
        rw [hits_lower ctx v0 hv0 (by omega)]
        ring
      · by_cases hB : (ctx.uNeu i0 = true ∧ idx = v0 * (ctx.nCells + 1) + i0 + 1)
        · have hxu : ctx.xu i0 = ctx.upperBound := by
            have := hB.1
            unfold Ctx.uNeu at this
            rw [Bool.and_eq_true] at this
            exact eq_of_beq this.1
          have hi01 : i0 + 1 = ctx.nCells := (hUb i0 hi0).mp hxu
          have hidx : idx = v0 * (ctx.nCells + 1) + ctx.nCells := by omega
          subst hidx
          rw [hits_upper ctx v0 hv0 (by omega)]
          ring
        · exfalso
          apply hIv
          rw [if_neg, if_neg, add_zero]
          · exact fun hcon => hB ⟨hcon.1, hcon.2⟩
          · exact fun hcon => hA ⟨hcon.1, hcon.2⟩
  rw [step1, step2]

/-- C3: the trace block of the residual equals
`R4 = −λ + H_global⁻¹·(L − Σᵢ[Cᵢσᵢ + Gᵢuᵢ])` with `λ`, `σᵢ`, `uᵢ` read
from `Y`; hence `R4 = 0` exactly when `λ` satisfies the trace equation. -/
theorem c3_trace_residual (ctx : Ctx)
    (hLb : ∀ i < ctx.nCells, ((ctx.xl i = ctx.lowerBound) ↔ i = 0))
    (hUb : ∀ i < ctx.nCells, ((ctx.xu i = ctx.upperBound) ↔ i + 1 = ctx.nCells))
    (t : ℚ) (Y : Vec) (f : ℕ) :
    res4 ctx t Y f
      = -(Y (lamIdx ctx f))
        + luSolve (ctx.nVar * (ctx.nCells + 1)) (HglobalMat ctx)
            (specTraceRHS ctx t (sigOf ctx Y) (uOf ctx Y)) f
    ∧ (res4 ctx t Y f = 0 ↔
        Y (lamIdx ctx f)
          = luSolve (ctx.nVar * (ctx.nCells + 1)) (HglobalMat ctx)
              (specTraceRHS ctx t (sigOf ctx Y) (uOf ctx Y)) f) := by
  have hvec : CsGuLofCoeffs ctx t (sigOf ctx Y) (uOf ctx Y)
      = specTraceRHS ctx t (sigOf ctx Y) (uOf ctx Y) := by
    funext idx
    exact CsGuL_eq_specTraceRHS ctx hLb hUb t _ _ idx
  constructor
  · unfold res4
    rw [hvec]
  · unfold res4
    rw [hvec]
    constructor <;> intro h <;> linarith

/-- C3 witness: the theorem applied at the concrete two-cell instance. -/
theorem c3_witness :
    (∀ i < exCtx3.nCells, ((exCtx3.xl i = exCtx3.lowerBound) ↔ i = 0))
    ∧ (∀ i < exCtx3.nCells, ((exCtx3.xu i = exCtx3.upperBound) ↔ i + 1 = exCtx3.nCells))
    ∧ res4 exCtx3 0 (fun _ => 1) 0
      = -((fun _ => (1 : ℚ)) (lamIdx exCtx3 0))
        + luSolve (exCtx3.nVar * (exCtx3.nCells + 1)) (HglobalMat exCtx3)
            (specTraceRHS exCtx3 0 (sigOf exCtx3 (fun _ => 1))
              (uOf exCtx3 (fun _ => 1))) 0 :=
  ⟨by decide, by decide,
   (c3_trace_residual exCtx3 (by decide) (by decide) 0 (fun _ => 1) 0).1⟩
